import Mathlib

/-!
Verification of the escrow core of the dome-sdk-py repository.

The Python sources under `src/dome_api_sdk` are shallowly embedded here:

* Python `int` is embedded as `ℤ` (arbitrary precision, no overflow).
* Python `float` values used by the fee/size helpers are embedded as `ℚ`
  with exact arithmetic; `int(x)` is truncation toward zero and `round(x)`
  is round-half-to-even, matching the builtin semantics on exact values.
* `raise`/`try` control flow is embedded with `Except`: a function that can
  raise returns `Except EscrowError _`, a `try ... except ... return False`
  block collapses errors to `false`.
* Keccak-256 (an external cryptographic collaborator from `eth_utils`) is a
  parameter `K : List ℕ → List (Fin 256)` of every definition that hashes;
  theorems that depend on collision resistance take injectivity of `K` as an
  explicit hypothesis.
* The two variable-length string fields of `OrderParams` (`market_id` and
  `side`) are embedded as their UTF-8 byte sequences (`List ℕ`), which is
  exactly what `eth_abi.encode` consumes for the type `string`.
-/

namespace Dome

/-! ## Python numeric builtins -/

/-- Model of the Python builtin `int(x)` on an exact value: truncation toward
zero (floor for non-negative values, ceiling for negative ones). -/
def pyInt (q : ℚ) : ℤ := if 0 ≤ q then ⌊q⌋ else ⌈q⌉

/-- Model of the Python builtin `round(x)` on an exact value: round half to
even (banker's rounding). -/
def pythonRound (q : ℚ) : ℤ :=
  if q - ⌊q⌋ < 1/2 then ⌊q⌋
  else if 1/2 < q - ⌊q⌋ then ⌊q⌋ + 1
  else if ⌊q⌋ % 2 = 0 then ⌊q⌋ else ⌊q⌋ + 1

theorem pythonRound_intCast (n : ℤ) : pythonRound (n : ℚ) = n := by
  simp [pythonRound, Int.floor_intCast]

/-! ## `escrow/utils.py` -/

/-- `parse_usdc` (utils.py lines 25-34): `int(amount * 1_000_000)`. -/
def parse_usdc (amount : ℚ) : ℤ := pyInt (amount * 1000000)

/-- `calculate_order_size_usdc` (utils.py lines 62-75): `parse_usdc(size * price)`. -/
def calculate_order_size_usdc (size price : ℚ) : ℤ := parse_usdc (size * price)

/-- `calculate_fee` (utils.py lines 49-59): `(order_size * fee_bps) // 10000`,
with `//` the Python floor division. -/
def calculate_fee (order_size fee_bps : ℤ) : ℤ := Int.fdiv (order_size * fee_bps) 10000

/-! ## `router/polymarket_escrow.py`: fee helpers -/

/-- Model of the Python expression `x or default` for `x : Optional[int]`:
`None` and `0` are falsy and select the default. -/
def pyOrInt (x : Option ℤ) (default : ℤ) : ℤ :=
  match x with
  | none => default
  | some v => if v = 0 then default else v

/-- `PolymarketRouterWithEscrow.calculate_order_fee` (polymarket_escrow.py
lines 384-398): the optional `fee_bps` override is combined with the
configured default by `fee_bps or self._escrow_config.fee_bps`. -/
def calculate_order_fee (cfg_fee_bps : ℤ) (size price : ℚ) (fee_bps : Option ℤ) : ℤ :=
  calculate_fee (calculate_order_size_usdc size price) (pyOrInt fee_bps cfg_fee_bps)

/-- The fee basis points used by `place_order` (polymarket_escrow.py line 192):
`params.get("fee_bps", self._escrow_config.fee_bps)`, which honors an explicit
`0`. -/
def place_order_fee_bps (cfg_fee_bps : ℤ) (params_fee_bps : Option ℤ) : ℤ :=
  params_fee_bps.getD cfg_fee_bps

/-- The fee amount computed by `place_order` (polymarket_escrow.py lines
231-232) from the order size and the resolved basis points. -/
def place_order_fee_amount (cfg_fee_bps : ℤ) (size price : ℚ) (params_fee_bps : Option ℤ) : ℤ :=
  calculate_fee (calculate_order_size_usdc size price) (place_order_fee_bps cfg_fee_bps params_fee_bps)

/-! ## Helper lemmas about the numeric builtins -/

theorem pyInt_eq_floor {q : ℚ} (h : 0 ≤ q) : pyInt q = ⌊q⌋ := by
  simp [pyInt, h]

theorem calculate_fee_eq_floor (os fb : ℤ) :
    calculate_fee os fb = ⌊((os : ℚ) * (fb : ℚ)) / 10000⌋ := by
  unfold calculate_fee
  rw [Int.fdiv_eq_ediv _ (by norm_num : (0:ℤ) ≤ 10000)]
  have h := Rat.floor_intCast_div_natCast (os * fb) 10000
  push_cast at h ⊢
  omega

/-! ## Claim theorems: C7, C2, C10 -/

/-- C7: for every non-negative `order_size` and `fee_bps`,
`calculate_fee(order_size, fee_bps)` equals
`floor(order_size * fee_bps / 10000)`; in particular
`calculate_fee(100_000_000, 25) = 250_000`,
`calculate_fee(1_000_000, 25) = 2_500` and
`calculate_fee(10_000_000, 100) = 100_000`. -/
theorem calculate_fee_floor (os fb : ℤ) (hos : 0 ≤ os) (hfb : 0 ≤ fb) :
    calculate_fee os fb = ⌊((os : ℚ) * (fb : ℚ)) / 10000⌋ ∧
    calculate_fee 100000000 25 = 250000 ∧
    calculate_fee 1000000 25 = 2500 ∧
    calculate_fee 10000000 100 = 100000 := by
  refine ⟨calculate_fee_eq_floor os fb, by decide, by decide, by decide⟩

theorem calculate_fee_floor_witness :
    (0 : ℤ) ≤ 1000000 ∧ (0 : ℤ) ≤ 25 ∧
    (calculate_fee 1000000 25 = ⌊((1000000 : ℚ) * (25 : ℚ)) / 10000⌋ ∧
      calculate_fee 100000000 25 = 250000 ∧
      calculate_fee 1000000 25 = 2500 ∧
      calculate_fee 10000000 100 = 100000) :=
  ⟨by decide, by decide, calculate_fee_floor 1000000 25 (by decide) (by decide)⟩

/-- C2 counterexample: at `size = 1` and the in-range price `19/10^7`, the
exact product `size * price * 10^6` is `1.9`; the code truncates it to `1`
while rounding it to 6 decimal places gives `2`, so
`calculate_order_size_usdc` does not compute `round(size * price)` scaled to
6 decimals. -/
theorem calculate_order_size_usdc_not_round_cex :
    (0 : ℚ) ≤ 19/10000000 ∧ (19 : ℚ)/10000000 ≤ 1 ∧
    calculate_order_size_usdc 1 (19/10000000) = 1 ∧
    pythonRound ((1 : ℚ) * (19/10000000) * 1000000) = 2 ∧
    calculate_order_size_usdc 1 (19/10000000) ≠
      pythonRound ((1 : ℚ) * (19/10000000) * 1000000) := by
  have h1 : calculate_order_size_usdc 1 (19/10000000) = 1 := by
    norm_num [calculate_order_size_usdc, parse_usdc, pyInt]
  have h2 : pythonRound ((1 : ℚ) * (19/10000000) * 1000000) = 2 := by
    norm_num [pythonRound]
  exact ⟨by norm_num, by norm_num, h1, h2, by rw [h1, h2]; decide⟩

/-- C2 (amended): for non-negative `size` and `price`,
`calculate_order_size_usdc(size, price)` equals the truncation
`int(size * price * 10^6)`, which on non-negative values is the floor (not the
rounding) of `size * price * 10^6`; the two quoted examples hold. -/
theorem calculate_order_size_usdc_truncates (size price : ℚ)
    (hs : 0 ≤ size) (hp : 0 ≤ price) :
    calculate_order_size_usdc size price = ⌊size * price * 1000000⌋ ∧
    calculate_order_size_usdc 10 (1/2) = 5000000 ∧
    calculate_order_size_usdc 100 (65/100) = 65000000 := by
  refine ⟨?_, ?_, ?_⟩
  · unfold calculate_order_size_usdc parse_usdc
    exact pyInt_eq_floor (by positivity)
  · norm_num [calculate_order_size_usdc, parse_usdc, pyInt]
  · norm_num [calculate_order_size_usdc, parse_usdc, pyInt]

theorem calculate_order_size_usdc_truncates_witness :
    (0 : ℚ) ≤ 10 ∧ (0 : ℚ) ≤ 1/2 ∧
    (calculate_order_size_usdc 10 (1/2) = ⌊(10 : ℚ) * (1/2) * 1000000⌋ ∧
      calculate_order_size_usdc 10 (1/2) = 5000000 ∧
      calculate_order_size_usdc 100 (65/100) = 65000000) :=
  ⟨by norm_num, by norm_num,
    calculate_order_size_usdc_truncates 10 (1/2) (by norm_num) (by norm_num)⟩

/-- C10: because `calculate_order_fee` merges the override with the configured
default through the truthiness fallback `fee_bps or default`, an explicit
override of `0` behaves exactly like no override at all; `place_order`, by
contrast, reads `params.get("fee_bps", default)` and an explicit `0` there
makes the computed fee amount `0`. -/
theorem calculate_order_fee_zero_override (cfg : ℤ) (size price : ℚ) :
    calculate_order_fee cfg size price (some 0) = calculate_order_fee cfg size price none ∧
    place_order_fee_amount cfg size price (some 0) = 0 := by
  constructor
  · rfl
  · show Int.fdiv (calculate_order_size_usdc size price * 0) 10000 = 0
    rw [mul_zero]
    rfl

/-! ## Hex strings and addresses (external `eth_utils` collaborators)

Keccak-256 itself is external; every definition that hashes takes it as an
explicit parameter `K : List ℕ → List (Fin 256)` mapping a byte sequence to a
32-byte digest. -/

/-- The sixteen lowercase hexadecimal digit characters: `0`-`9` followed by
`a`-`f`. -/
def lowerHexDigits : List Char :=
  (List.range 10).map (fun d => Char.ofNat (48 + d))
    ++ (List.range 6).map (fun d => Char.ofNat (97 + d))

/-- All characters accepted as hexadecimal digits (either case): the
lowercase digits followed by `A`-`F`. -/
def hexDigits : List Char :=
  lowerHexDigits ++ (List.range 6).map (fun d => Char.ofNat (65 + d))

/-- Value of a hexadecimal digit character (case insensitive, `0` otherwise). -/
def hexVal (c : Char) : ℕ :=
  match c.toLower with
  | '0' => 0 | '1' => 1 | '2' => 2 | '3' => 3 | '4' => 4 | '5' => 5 | '6' => 6 | '7' => 7
  | '8' => 8 | '9' => 9 | 'a' => 10 | 'b' => 11 | 'c' => 12 | 'd' => 13 | 'e' => 14 | 'f' => 15
  | _ => 0

/-- Model of the Python `str.lower()` on the ASCII strings this SDK handles:
characterwise lowercasing. -/
def pyLower (s : String) : String := ⟨s.data.map Char.toLower⟩

/-- ASCII byte sequence of a string (all strings handled here are ASCII). -/
def asciiBytes (s : String) : List ℕ := s.data.map Char.toNat

/-- Nibble `i` of a 32-byte digest read as a 64-character hex string: the
high then low nibble of each byte. -/
def nibbleAt (h : List (Fin 256)) (i : ℕ) : ℕ :=
  let b := (h.getD (i / 2) 0).val
  if i % 2 = 0 then b / 16 else b % 16

/-- Recursion of `to_checksum_address`: uppercase the character at position
`i` exactly when nibble `i` of the digest exceeds 7 (EIP-55). -/
def checksumGo (h : List (Fin 256)) : ℕ → List Char → List Char
  | _, [] => []
  | i, c :: rest => (if 7 < nibbleAt h i then c.toUpper else c) :: checksumGo h (i + 1) rest

/-- `eth_utils.to_checksum_address`: lowercase the 40 hex characters, hash
their ASCII bytes with Keccak-256, and uppercase each character whose digest
nibble exceeds 7. -/
def to_checksum_address (K : List ℕ → List (Fin 256)) (s : String) : String :=
  ⟨'0' :: 'x' :: checksumGo (K (((s.data.drop 2).map Char.toLower).map Char.toNat)) 0
    ((s.data.drop 2).map Char.toLower)⟩

/-- `eth_utils` hex-address format check: the string is `0x` followed by
exactly 40 hexadecimal digit characters. -/
def isHexAddress (s : String) : Bool :=
  match s.data with
  | c0 :: c1 :: rest =>
      c0 == '0' && c1 == 'x' && rest.length == 40 &&
        rest.all (fun c => decide (c ∈ hexDigits))
  | _ => false

/-- `eth_utils` checksum-format check: a hex address whose digits are neither
all lowercase nor all uppercase. -/
def is_checksum_formatted (s : String) : Bool :=
  isHexAddress s &&
    (match s.data with
     | _ :: _ :: rest =>
        !(rest == rest.map Char.toLower) && !(rest == rest.map Char.toUpper)
     | _ => false)

/-- `eth_utils.is_address`: a hex address that, when it is checksum
formatted (mixed case), must equal its own checksummed form. -/
def is_address (K : List ℕ → List (Fin 256)) (s : String) : Bool :=
  isHexAddress s && (!(is_checksum_formatted s) || s == to_checksum_address K s)

/-! ## `escrow/types.py` -/

/-- `FeeAuthorization` (types.py lines 36-50). -/
structure FeeAuthorization where
  order_id : String
  payer : String
  fee_amount : ℤ
  deadline : ℤ

/-- `SignedFeeAuthorization` (types.py lines 53-58). -/
structure SignedFeeAuthorization where
  order_id : String
  payer : String
  fee_amount : ℤ
  deadline : ℤ
  signature : String

/-- The distinct `ValueError` raise sites of the escrow module; each
constructor corresponds to one message template in the source. -/
inductive EscrowError where
  | invalidEscrowAddress (addr : String)
  | invalidPayerAddress (addr : String)
  | deadlineTooShort (seconds : ℤ)
  | deadlineTooLong (seconds : ℤ)
  | invalidPrice (price : ℚ)
  | invalidUserAddress (addr : String)
  | valueOutOfBounds

/-! ## `escrow/signing.py`: `create_fee_authorization` -/

/-- `MIN_DEADLINE_SECONDS` (signing.py line 19). -/
def MIN_DEADLINE_SECONDS : ℤ := 60

/-- `MAX_DEADLINE_SECONDS` (signing.py line 20). -/
def MAX_DEADLINE_SECONDS : ℤ := 86400

/-- `create_fee_authorization` (signing.py lines 56-95). `now` is the value
of `int(time.time())`; no validation of `fee_amount` occurs. -/
def create_fee_authorization (K : List ℕ → List (Fin 256)) (now : ℤ)
    (order_id payer : String) (fee_amount deadline_seconds : ℤ) :
    Except EscrowError FeeAuthorization :=
  if is_address K payer = false then .error (.invalidPayerAddress payer)
  else if deadline_seconds < MIN_DEADLINE_SECONDS then
    .error (.deadlineTooShort deadline_seconds)
  else if MAX_DEADLINE_SECONDS < deadline_seconds then
    .error (.deadlineTooLong deadline_seconds)
  else .ok ⟨order_id, to_checksum_address K payer, fee_amount, now + deadline_seconds⟩

/-- A trivial concrete digest function (all-zero digest), used to instantiate
the keccak parameter in witnesses that do not rely on hash injectivity. -/
def keccakZero : List ℕ → List (Fin 256) := fun _ => List.replicate 32 0

/-- A concrete all-lowercase well-formed account address. -/
def addrLowA : String := "0xaaaaaaaaaaaaaaaaaaaaaaaaaaaaaaaaaaaaaaaa"

/-! ## Claim theorems: C5, C9 -/

/-- C5: `create_fee_authorization` rejects a malformed payer with a payer
validation error, rejects out-of-range deadlines distinguishing too short
(`deadline_seconds < 60`) from too long (`> 86400`), and otherwise returns a
`FeeAuthorization` whose deadline is `now + deadline_seconds` (strictly in
the future) and whose payer is the checksummed input payer. -/
theorem create_fee_authorization_spec (K : List ℕ → List (Fin 256)) (now : ℤ)
    (order_id payer : String) (fee_amount deadline_seconds : ℤ) :
    (is_address K payer = false →
      create_fee_authorization K now order_id payer fee_amount deadline_seconds
        = .error (.invalidPayerAddress payer)) ∧
    (is_address K payer = true → deadline_seconds < 60 →
      create_fee_authorization K now order_id payer fee_amount deadline_seconds
        = .error (.deadlineTooShort deadline_seconds)) ∧
    (is_address K payer = true → 86400 < deadline_seconds →
      create_fee_authorization K now order_id payer fee_amount deadline_seconds
        = .error (.deadlineTooLong deadline_seconds)) ∧
    (is_address K payer = true → 60 ≤ deadline_seconds → deadline_seconds ≤ 86400 →
      create_fee_authorization K now order_id payer fee_amount deadline_seconds
        = .ok ⟨order_id, to_checksum_address K payer, fee_amount, now + deadline_seconds⟩
      ∧ now < now + deadline_seconds) := by
  unfold create_fee_authorization MIN_DEADLINE_SECONDS MAX_DEADLINE_SECONDS
  refine ⟨fun h => by simp [h], fun h hs => ?_, fun h hl => ?_, fun h h1 h2 => ?_⟩
  · simp [h, hs]
  · have hns : ¬ deadline_seconds < 60 := by omega
    simp [h, hl, hns]
  · have hns : ¬ deadline_seconds < 60 := by omega
    have hnl : ¬ 86400 < deadline_seconds := by omega
    refine ⟨by simp [h, hns, hnl], by omega⟩

theorem create_fee_authorization_spec_witness :
    is_address keccakZero addrLowA = true ∧ (60 : ℤ) ≤ 3600 ∧ (3600 : ℤ) ≤ 86400 ∧
    (create_fee_authorization keccakZero 1700000000 "0xab" addrLowA 2500 3600
        = .ok ⟨"0xab", to_checksum_address keccakZero addrLowA, 2500, 1700000000 + 3600⟩
      ∧ (1700000000 : ℤ) < 1700000000 + 3600) :=
  ⟨by decide, by decide, by decide,
    (create_fee_authorization_spec keccakZero 1700000000 "0xab" addrLowA 2500 3600).2.2.2
      (by decide) (by decide) (by decide)⟩

/-- C9 counterexample: with a well-formed payer and an in-range deadline,
`create_fee_authorization` happily returns a `FeeAuthorization` whose
`fee_amount` is the negative input `-1`: no rejection of a negative fee
occurs anywhere. -/
theorem create_fee_authorization_negative_fee_cex :
    create_fee_authorization keccakZero 1700000000 "0xab" addrLowA (-1) 3600
      = .ok ⟨"0xab", to_checksum_address keccakZero addrLowA, -1, 1700003600⟩ ∧
    (-1 : ℤ) < 0 :=
  ⟨by rfl, by decide⟩

/-- C9 (amended): `create_fee_authorization` performs no validation of
`fee_amount` and copies it verbatim into the returned authorization, so the
result's `fee_amount` is non-negative exactly when the caller passes a
non-negative fee. -/
theorem create_fee_authorization_fee_passthrough (K : List ℕ → List (Fin 256))
    (now : ℤ) (order_id payer : String) (fee_amount deadline_seconds : ℤ)
    (fa : FeeAuthorization)
    (h : create_fee_authorization K now order_id payer fee_amount deadline_seconds
      = .ok fa) :
    fa.fee_amount = fee_amount ∧ (0 ≤ fee_amount → 0 ≤ fa.fee_amount) := by
  unfold create_fee_authorization at h
  split at h
  · cases h
  · split at h
    · cases h
    · split at h
      · cases h
      · cases h
        exact ⟨rfl, fun hf => hf⟩

theorem create_fee_authorization_fee_passthrough_witness :
    create_fee_authorization keccakZero 1700000000 "0xab" addrLowA 2500 3600
      = .ok ⟨"0xab", to_checksum_address keccakZero addrLowA, 2500, 1700003600⟩ ∧
    ((⟨"0xab", to_checksum_address keccakZero addrLowA, 2500, 1700003600⟩ :
        FeeAuthorization).fee_amount = 2500 ∧
      ((0 : ℤ) ≤ 2500 →
        (0 : ℤ) ≤ (⟨"0xab", to_checksum_address keccakZero addrLowA, 2500, 1700003600⟩ :
          FeeAuthorization).fee_amount)) :=
  ⟨by rfl,
    create_fee_authorization_fee_passthrough keccakZero 1700000000 "0xab" addrLowA
      2500 3600 _ (by rfl)⟩

/-! ## Decimal digit strings

`sign_fee_authorization_with_signer` serializes `feeAmount` and `deadline`
with the Python builtin `str`, and the EIP-712 processor on the other side of
the capability boundary parses the decimal string back. -/

/-- Most-significant-digit-first value of a digit list in base `B`. -/
def ofBase (B : ℕ) : List ℕ → ℕ
  | [] => 0
  | d :: t => d * B ^ t.length + ofBase B t

/-- Decimal digit characters of a natural number, most significant first. -/
def natDecimalChars (n : ℕ) : List Char :=
  if n = 0 then ['0'] else (Nat.digits 10 n).reverse.map (fun d => Char.ofNat (48 + d))

/-- Model of the Python builtin `str` on an `int`. -/
def pyStr (i : ℤ) : String :=
  if i < 0 then ⟨'-' :: natDecimalChars i.natAbs⟩ else ⟨natDecimalChars i.natAbs⟩

/-- Parse a string of decimal digit characters; fails on the empty string or
any non-digit character. -/
def decimalStringToNat (s : String) : Option ℕ :=
  if !(s.data.isEmpty) && s.data.all Char.isDigit then
    some (ofBase 10 (s.data.map (fun c => c.toNat - 48)))
  else none

theorem ofBase_append_singleton (B : ℕ) (l : List ℕ) (d : ℕ) :
    ofBase B (l ++ [d]) = ofBase B l * B + d := by
  induction l with
  | nil => simp [ofBase]
  | cons e t ih =>
      simp only [List.cons_append, ofBase, ih, List.append_eq, List.length_append,
        List.length_cons, List.length_nil]
      ring

theorem ofBase_reverse (B : ℕ) (l : List ℕ) :
    ofBase B l.reverse = Nat.ofDigits B l := by
  induction l with
  | nil => simp [ofBase, Nat.ofDigits]
  | cons d t ih =>
      rw [List.reverse_cons, ofBase_append_singleton, ih, Nat.ofDigits_cons]
      ring

theorem digitChar_isDigit {d : ℕ} (h : d < 10) :
    (Char.ofNat (48 + d)).isDigit = true ∧ (Char.ofNat (48 + d)).toNat - 48 = d := by
  interval_cases d <;> exact ⟨by decide, by decide⟩

theorem decimalStringToNat_natDecimalChars (n : ℕ) :
    decimalStringToNat ⟨natDecimalChars n⟩ = some n := by
  rcases Nat.eq_zero_or_pos n with rfl | hn
  · decide
  · have hne : n ≠ 0 := Nat.pos_iff_ne_zero.mp hn
    have hlt : ∀ d ∈ Nat.digits 10 n, d < 10 :=
      fun d hd => Nat.digits_lt_base (by norm_num) hd
    have hchars : natDecimalChars n
        = (Nat.digits 10 n).reverse.map (fun d => Char.ofNat (48 + d)) := by
      unfold natDecimalChars
      rw [if_neg hne]
    have hall : (natDecimalChars n).all Char.isDigit = true := by
      rw [hchars, List.all_eq_true]
      intro c hc
      rw [List.mem_map] at hc
      obtain ⟨d, hd, rfl⟩ := hc
      exact (digitChar_isDigit (hlt d (List.mem_reverse.mp hd))).1
    have hnonempty : (natDecimalChars n).isEmpty = false := by
      rw [hchars]
      rcases h : (Nat.digits 10 n).reverse.map (fun d => Char.ofNat (48 + d)) with _ | _
      · exfalso
        have h1 := List.map_eq_nil.mp h
        have h2 := List.reverse_eq_nil_iff.mp h1
        exact hne (Nat.digits_eq_nil_iff_eq_zero.mp h2)
      · rfl
    have hmap : ((natDecimalChars n).map (fun c => c.toNat - 48))
        = (Nat.digits 10 n).reverse := by
      rw [hchars, List.map_map]
      have hcg : ∀ d ∈ (Nat.digits 10 n).reverse,
          ((fun c => c.toNat - 48) ∘ (fun d => Char.ofNat (48 + d))) d = id d := by
        intro d hd
        exact (digitChar_isDigit (hlt d (List.mem_reverse.mp hd))).2
      rw [List.map_congr_left hcg, List.map_id]
    show (if !(natDecimalChars n).isEmpty && (natDecimalChars n).all Char.isDigit then
        some (ofBase 10 ((natDecimalChars n).map (fun c => c.toNat - 48))) else none)
      = some n
    rw [hnonempty, hall, hmap, ofBase_reverse, Nat.ofDigits_digits]
    rfl

/-! ## `escrow/signing.py`: EIP-712 typed-data messages

A `FeeAuthorization` field of EIP-712 type `uint256` crosses the signing
boundary either as a native integer (local-key path, and the verifier) or as
a decimal string (capability path); the EIP-712 processor on the receiving
side interprets both into the same canonical unsigned value. -/

/-- A value placed in a typed-data message: a native integer or a string. -/
inductive TDValue where
  | num (n : ℤ)
  | str (s : String)

/-- The message part of the `FeeAuthorization` typed data: fields
`orderId`, `payer`, `feeAmount`, `deadline` in the fixed schema order of
`FEE_AUTHORIZATION_TYPES` (types.py lines 62-69). -/
structure TDMessage where
  orderId : String
  payer : String
  feeAmount : TDValue
  deadline : TDValue

/-- Message constructed by `sign_fee_authorization` (signing.py lines
132-137): numeric fields as native integers. -/
def sign_fee_authorization_message (fa : FeeAuthorization) : TDMessage :=
  ⟨fa.order_id, fa.payer, .num fa.fee_amount, .num fa.deadline⟩

/-- Message constructed by `sign_fee_authorization_with_signer` (signing.py
lines 198-203): `feeAmount` and `deadline` serialized with `str`. -/
def sign_with_signer_message (fa : FeeAuthorization) : TDMessage :=
  ⟨fa.order_id, fa.payer, .str (pyStr fa.fee_amount), .str (pyStr fa.deadline)⟩

/-- Message reconstructed by `verify_fee_authorization_signature`
(signing.py lines 259-264): numeric fields as native integers. -/
def verify_reconstructed_message (sa : SignedFeeAuthorization) : TDMessage :=
  ⟨sa.order_id, sa.payer, .num sa.fee_amount, .num sa.deadline⟩

/-- Both signing paths copy the four fields of the input authorization
verbatim into the returned `SignedFeeAuthorization` (signing.py lines
148-154 and 214-220), attaching the produced signature. -/
def sign_result (fa : FeeAuthorization) (signature : String) : SignedFeeAuthorization :=
  ⟨fa.order_id, fa.payer, fa.fee_amount, fa.deadline, signature⟩

/-- Canonical EIP-712 interpretation of a `uint256`-typed field: a native
integer must lie in `[0, 2^256)`; a string is parsed as a decimal number and
range checked; anything else is rejected (the processor raises). -/
def parseU256 : TDValue → Option ℕ
  | .num n => if 0 ≤ n ∧ n < 2 ^ 256 then some n.toNat else none
  | .str s => (decimalStringToNat s).bind (fun v => if v < 2 ^ 256 then some v else none)

/-- The canonical `FeeAuthorization` struct that is hashed per EIP-712. -/
structure CanonicalFeeAuth where
  orderId : String
  payer : String
  feeAmount : ℕ
  deadline : ℕ

/-- Canonical structure determined by a typed-data message; `none` models the
EIP-712 processor raising on an uninterpretable field. -/
def canonicalFeeAuthMessage (m : TDMessage) : Option CanonicalFeeAuth :=
  match parseU256 m.feeAmount, parseU256 m.deadline with
  | some f, some d => some ⟨m.orderId, m.payer, f, d⟩
  | _, _ => none

theorem parseU256_num {n : ℤ} (h0 : 0 ≤ n) (h1 : n < 2 ^ 256) :
    parseU256 (.num n) = some n.toNat := by
  simp only [parseU256]
  rw [if_pos ⟨h0, h1⟩]

theorem parseU256_pyStr {n : ℤ} (h0 : 0 ≤ n) (h1 : n < 2 ^ 256) :
    parseU256 (.str (pyStr n)) = some n.toNat := by
  have hnn : ¬ n < 0 := by omega
  rw [pyStr, if_neg hnn]
  simp only [parseU256]
  rw [decimalStringToNat_natDecimalChars]
  have habs : n.natAbs = n.toNat := by omega
  have hlt : n.natAbs < 2 ^ 256 := by
    have h2 : ((2 : ℤ) ^ 256) = ((2 ^ 256 : ℕ) : ℤ) := by norm_cast
    omega
  show (if n.natAbs < 2 ^ 256 then some n.natAbs else none) = some n.toNat
  rw [if_pos hlt, habs]

/-! ## Claim theorem: C1 -/

/-- C1: for every `FeeAuthorization` whose numeric fields are representable
as `uint256`, the typed-data message built by the local-key signing path
(native integers), the message built by the capability signing path (decimal
strings), and the message reconstructed by the verifier all determine the
same canonical EIP-712 `FeeAuthorization` structure, so a signature produced
over either message verifies identically. -/
theorem sign_paths_same_canonical_struct (fa : FeeAuthorization)
    (hf0 : 0 ≤ fa.fee_amount) (hf1 : fa.fee_amount < 2 ^ 256)
    (hd0 : 0 ≤ fa.deadline) (hd1 : fa.deadline < 2 ^ 256) :
    canonicalFeeAuthMessage (sign_fee_authorization_message fa)
      = some ⟨fa.order_id, fa.payer, fa.fee_amount.toNat, fa.deadline.toNat⟩ ∧
    canonicalFeeAuthMessage (sign_with_signer_message fa)
      = canonicalFeeAuthMessage (sign_fee_authorization_message fa) ∧
    (∀ sig, canonicalFeeAuthMessage (verify_reconstructed_message (sign_result fa sig))
      = canonicalFeeAuthMessage (sign_fee_authorization_message fa)) := by
  have h1 : canonicalFeeAuthMessage (sign_fee_authorization_message fa)
      = some ⟨fa.order_id, fa.payer, fa.fee_amount.toNat, fa.deadline.toNat⟩ := by
    show canonicalFeeAuthMessage ⟨fa.order_id, fa.payer, .num fa.fee_amount,
      .num fa.deadline⟩ = _
    simp only [canonicalFeeAuthMessage]
    rw [parseU256_num hf0 hf1, parseU256_num hd0 hd1]
  have h2 : canonicalFeeAuthMessage (sign_with_signer_message fa)
      = some ⟨fa.order_id, fa.payer, fa.fee_amount.toNat, fa.deadline.toNat⟩ := by
    show canonicalFeeAuthMessage ⟨fa.order_id, fa.payer, .str (pyStr fa.fee_amount),
      .str (pyStr fa.deadline)⟩ = _
    simp only [canonicalFeeAuthMessage]
    rw [parseU256_pyStr hf0 hf1, parseU256_pyStr hd0 hd1]
  have h3 : ∀ sig, canonicalFeeAuthMessage (verify_reconstructed_message (sign_result fa sig))
      = some ⟨fa.order_id, fa.payer, fa.fee_amount.toNat, fa.deadline.toNat⟩ := by
    intro sig
    show canonicalFeeAuthMessage ⟨fa.order_id, fa.payer, .num fa.fee_amount,
      .num fa.deadline⟩ = _
    simp only [canonicalFeeAuthMessage]
    rw [parseU256_num hf0 hf1, parseU256_num hd0 hd1]
  exact ⟨h1, h2.trans h1.symm, fun sig => (h3 sig).trans h1.symm⟩

set_option maxRecDepth 4096 in
theorem sign_paths_same_canonical_struct_witness :
    (0 : ℤ) ≤ 2500 ∧ (2500 : ℤ) < 2 ^ 256 ∧
    (0 : ℤ) ≤ 1700003600 ∧ (1700003600 : ℤ) < 2 ^ 256 ∧
    (canonicalFeeAuthMessage (sign_fee_authorization_message
        ⟨"0xab", addrLowA, 2500, 1700003600⟩)
      = some ⟨"0xab", addrLowA, (2500 : ℤ).toNat, (1700003600 : ℤ).toNat⟩ ∧
    canonicalFeeAuthMessage (sign_with_signer_message ⟨"0xab", addrLowA, 2500, 1700003600⟩)
      = canonicalFeeAuthMessage (sign_fee_authorization_message
        ⟨"0xab", addrLowA, 2500, 1700003600⟩) ∧
    (∀ sig, canonicalFeeAuthMessage (verify_reconstructed_message
        (sign_result ⟨"0xab", addrLowA, 2500, 1700003600⟩ sig))
      = canonicalFeeAuthMessage (sign_fee_authorization_message
        ⟨"0xab", addrLowA, 2500, 1700003600⟩))) :=
  ⟨by decide, by decide, by decide, by decide,
    sign_paths_same_canonical_struct ⟨"0xab", addrLowA, 2500, 1700003600⟩
      (by decide) (by decide) (by decide) (by decide)⟩

/-! ## `router/polymarket_escrow.py`: response handling -/

/-- JSON values as parsed by `response.json()`: JSON integers become Python
`int`, non-integral JSON numbers become `float`, objects become `dict`. -/
inductive JValue where
  | jnull
  | jbool (b : Bool)
  | jint (n : ℤ)
  | jfloat (q : ℚ)
  | jstr (s : String)
  | jarr (xs : List JValue)
  | jobj (fields : List (String × JValue))

/-- Lookup of a key in an object field list (Python dict lookup). -/
def jlookup (fields : List (String × JValue)) (k : String) : Option JValue :=
  match fields.find? (fun p => p.1 == k) with
  | some p => some p.2
  | none => none

/-- Python truthiness of a parsed JSON value. -/
def truthy : JValue → Bool
  | .jnull => false
  | .jbool b => b
  | .jint n => decide (n ≠ 0)
  | .jfloat q => decide (q ≠ 0)
  | .jstr s => !(s.data.isEmpty)
  | .jarr xs => !(xs.isEmpty)
  | .jobj fields => !(fields.isEmpty)

/-- `isinstance(x, int)` reading of a parsed JSON scalar as a Python `int`:
Python `bool` is a subclass of `int` with values `0` and `1`; a `float` is
not an `int`. -/
def statusInt : JValue → Option ℤ
  | .jint n => some n
  | .jbool b => some (if b then 1 else 0)
  | _ => none

/-- Python `x or y` where `x` is a dict lookup that may be missing (`None`)
or falsy. -/
def pyOrJ (x : Option JValue) (y : JValue) : JValue :=
  match x with
  | some v => if truthy v then v else y
  | none => y

/-- The message attached to a venue rejection (polymarket_escrow.py lines
370-375): `result.get("errorMessage") or result.get("error") or
f"Polymarket returned HTTP {status}"`. -/
def venue_error_message (rf : List (String × JValue)) (status : ℤ) : JValue :=
  pyOrJ (jlookup rf "errorMessage")
    (pyOrJ (jlookup rf "error")
      (.jstr ("Polymarket returned HTTP " ++ toString status)))

/-- The distinct exception raise sites of the `place_order` response parsing
(polymarket_escrow.py lines 339-378). -/
inductive RouterError where
  | serverError (message : JValue)
  | orderPlacementFailed (reason : Option JValue) (code : Option JValue)
  | requestFailed
  | emptyResult
  | attributeFailure
  | rejectedByPolymarket (message : JValue)

/-- Response handling of `place_order` (polymarket_escrow.py lines 347-378)
for a JSON-object body `resp`; `isSuccess` is `response.is_success`. The
`attributeFailure` cases model the `AttributeError` Python raises when
`.get` is called on a non-dict value. -/
def handle_place_order_response (isSuccess : Bool) (resp : List (String × JValue)) :
    Except RouterError JValue :=
  match jlookup resp "error" with
  | some (.jstr e) => .error (.serverError ((jlookup resp "message").getD (.jstr e)))
  | some (.jobj ef) =>
      match (jlookup ef "data").getD (.jobj []) with
      | .jobj df =>
          .error (.orderPlacementFailed
            ((jlookup df "reason").orElse (fun _ => jlookup ef "message"))
            (jlookup ef "code"))
      | _ => .error .attributeFailure
  | some _ => .error .attributeFailure
  | none =>
      if isSuccess = false then .error .requestFailed
      else
        match jlookup resp "result" with
        | none => .error .emptyResult
        | some result =>
            if truthy result = false then .error .emptyResult
            else
              match result with
              | .jobj rf =>
                  match jlookup rf "status" with
                  | some stv =>
                      match statusInt stv with
                      | some n =>
                          if 400 ≤ n then
                            .error (.rejectedByPolymarket (venue_error_message rf n))
                          else .ok result
                      | none => .ok result
                  | none => .ok result
              | _ => .error .attributeFailure

/-- A concrete venue result whose `status` is the non-integral JSON number
`404.0`. -/
def floatStatusResult : List (String × JValue) :=
  [("status", .jfloat 404), ("errorMessage", .jstr "bad order")]

/-- A successful envelope wrapping `floatStatusResult`. -/
def floatStatusResp : List (String × JValue) :=
  [("result", .jobj floatStatusResult)]

/-- A concrete venue result whose `status` is the JSON integer `500`. -/
def intStatusResult : List (String × JValue) :=
  [("status", .jint 500), ("errorMessage", .jstr "bad order")]

/-- A successful envelope wrapping `intStatusResult`. -/
def intStatusResp : List (String × JValue) :=
  [("result", .jobj intStatusResult)]

/-! ## Claim theorems: C8 -/

/-- C8 counterexample: a server response whose outer envelope reports
success and whose result carries the numeric status `404.0 >= 400` is
returned to the caller instead of raising a rejection, because the code
tests `isinstance(status, int)` and a JSON `404.0` parses to a Python
`float`. -/
theorem place_order_float_status_cex :
    handle_place_order_response true floatStatusResp = .ok (.jobj floatStatusResult) ∧
    jlookup floatStatusResult "status" = some (.jfloat 404) ∧
    (400 : ℚ) ≤ 404 :=
  ⟨by rfl, by rfl, by norm_num⟩

/-- C8 (amended): in `place_order`, when the parsed response has no error
envelope, reports transport success, and carries a truthy object result,
then a result `status` that reads as a Python `int` with value at least 400
raises a rejection error carrying the venue message, while an absent status,
a status that is not a Python `int` (e.g. a JSON float), or an integer
status below 400 lets the result payload be returned to the caller. -/
theorem place_order_status_handling (resp rf : List (String × JValue))
    (hne : jlookup resp "error" = none)
    (hres : jlookup resp "result" = some (.jobj rf))
    (htr : truthy (.jobj rf) = true) :
    (∀ stv n, jlookup rf "status" = some stv → statusInt stv = some n → 400 ≤ n →
      handle_place_order_response true resp
        = .error (.rejectedByPolymarket (venue_error_message rf n))) ∧
    (∀ stv n, jlookup rf "status" = some stv → statusInt stv = some n → n < 400 →
      handle_place_order_response true resp = .ok (.jobj rf)) ∧
    (jlookup rf "status" = none →
      handle_place_order_response true resp = .ok (.jobj rf)) ∧
    (∀ stv, jlookup rf "status" = some stv → statusInt stv = none →
      handle_place_order_response true resp = .ok (.jobj rf)) := by
  have hbase : handle_place_order_response true resp =
      (match jlookup rf "status" with
        | some stv =>
            match statusInt stv with
            | some n =>
                if 400 ≤ n then
                  .error (.rejectedByPolymarket (venue_error_message rf n))
                else .ok (.jobj rf)
            | none => .ok (.jobj rf)
        | none => .ok (.jobj rf)) := by
    unfold handle_place_order_response
    rw [hne, hres]
    simp only [htr, Bool.true_eq_false, if_false]
  refine ⟨fun stv n h1 h2 h3 => ?_, fun stv n h1 h2 h3 => ?_, fun h1 => ?_,
    fun stv h1 h2 => ?_⟩
  · rw [hbase, h1]
    simp only [h2]
    exact if_pos h3
  · rw [hbase, h1]
    simp only [h2]
    exact if_neg (by omega)
  · rw [hbase, h1]
  · rw [hbase, h1]
    simp only [h2]

theorem place_order_status_handling_witness :
    jlookup intStatusResp "error" = none ∧
    jlookup intStatusResp "result" = some (.jobj intStatusResult) ∧
    truthy (.jobj intStatusResult) = true ∧
    jlookup intStatusResult "status" = some (.jint 500) ∧
    statusInt (.jint 500) = some 500 ∧ (400 : ℤ) ≤ 500 ∧
    handle_place_order_response true intStatusResp
      = .error (.rejectedByPolymarket (venue_error_message intStatusResult 500)) :=
  ⟨by rfl, by rfl, by rfl, by rfl, by rfl, by decide,
    (place_order_status_handling intStatusResp intStatusResult (by rfl) (by rfl)
      (by rfl)).1 (.jint 500) 500 (by rfl) (by rfl) (by decide)⟩

/-! ## `escrow/order_id.py`: ABI encoding and order identifiers -/

/-- `OrderParams` (types.py lines 10-33). The two variable-length string
fields `market_id` and `side` are embedded as their UTF-8 byte sequences,
which is exactly what `eth_abi.encode` consumes for the ABI type `string`. -/
structure OrderParams where
  user_address : String
  market_id : List ℕ
  side : List ℕ
  size : ℤ
  price : ℚ
  timestamp : ℤ
  chain_id : ℤ

/-- Big-endian fixed-width byte sequence of a natural number. -/
def beBytes : ℕ → ℕ → List ℕ
  | 0, _ => []
  | w + 1, n => beBytes w (n / 256) ++ [n % 256]

/-- `eth_abi` encoding of a `uint256` head value: 32 bytes big-endian;
Python ints outside `[0, 2^256)` make the encoder raise `ValueOutOfBounds`. -/
def word256 (n : ℤ) : Option (List ℕ) :=
  if 0 ≤ n ∧ n < 2 ^ 256 then some (beBytes 32 n.toNat) else none

/-- Zero padding needed to reach a 32-byte boundary. -/
def padLen (n : ℕ) : ℕ := (32 - n % 32) % 32

/-- `eth_abi` tail encoding of a dynamic `string` item: a 32-byte length
word followed by the bytes, zero padded to a 32-byte boundary. -/
def encBytesItem (bs : List ℕ) : List ℕ :=
  beBytes 32 bs.length ++ bs ++ List.replicate (padLen bs.length) 0

/-- Numeric value of the 40 hex digits of an address string `0x...`. -/
def addrValue (s : String) : ℕ := ofBase 16 ((s.data.drop 2).map (fun c => hexVal c))

/-- `eth_abi` encoding of an `address` value from its hex string: the
20-byte account value left-padded to 32 bytes; a string that is not a hex
address makes the encoder raise. -/
def addressWord (s : String) : Option (List ℕ) :=
  if isHexAddress s then some (beBytes 32 (addrValue s)) else none

/-- `eth_abi.encode` of the tuple
`(uint256, address, string, string, uint256, uint256, uint256)` used by
`generate_order_id` (order_id.py lines 40-51): a 7-slot head whose slots 3
and 4 are the byte offsets of the two dynamic string items, followed by the
two encoded strings. The guards model `ValueOutOfBounds` raised while
packing a length or offset that exceeds `uint256`. -/
def abiEncode7 (chain_id : ℤ) (addr : String) (market_id side : List ℕ)
    (size priceBps timestamp : ℤ) : Option (List ℕ) :=
  (word256 chain_id).bind fun w1 =>
  (addressWord addr).bind fun w2 =>
  (word256 size).bind fun w5 =>
  (word256 priceBps).bind fun w6 =>
  (word256 timestamp).bind fun w7 =>
  if market_id.length < 2 ^ 256 ∧ side.length < 2 ^ 256 ∧
      224 + (encBytesItem market_id).length < 2 ^ 256 then
    some (w1 ++ w2 ++ beBytes 32 224 ++ beBytes 32 (224 + (encBytesItem market_id).length)
      ++ w5 ++ w6 ++ w7 ++ encBytesItem market_id ++ encBytesItem side)
  else none

/-- Lowercase hex character string of a byte sequence (`bytes.hex()`). -/
def byteHexChars (bs : List (Fin 256)) : List Char :=
  (bs.map (fun b => [lowerHexDigits.getD (b.val / 16) '0',
    lowerHexDigits.getD (b.val % 16) '0'])).flatten

/-- `generate_order_id` (order_id.py lines 15-54): validate the price range
and the user address, normalize the address to its checksummed form, ABI
encode `(chain_id, address, market_id, side, size, round(price * 10000),
timestamp)` and return the Keccak-256 hash as a `0x`-prefixed lowercase hex
string. -/
def generate_order_id (K : List ℕ → List (Fin 256)) (p : OrderParams) :
    Except EscrowError String :=
  if p.price < 0 ∨ 1 < p.price then .error (.invalidPrice p.price)
  else if is_address K p.user_address = false then .error (.invalidUserAddress p.user_address)
  else
    match abiEncode7 p.chain_id (to_checksum_address K p.user_address) p.market_id p.side
        p.size (pythonRound (p.price * 10000)) p.timestamp with
    | some encoded => .ok ⟨'0' :: 'x' :: byteHexChars (K encoded)⟩
    | none => .error .valueOutOfBounds

/-- `verify_order_id` (order_id.py lines 57-71): recompute and compare case
insensitively; any raised error is swallowed into `false`. -/
def verify_order_id (K : List ℕ → List (Fin 256)) (order_id : String) (p : OrderParams) :
    Bool :=
  match generate_order_id K p with
  | .ok reconstructed => pyLower reconstructed == pyLower order_id
  | .error _ => false

/-! ## `escrow/signing.py`: signature verification structure -/

/-- Hex digit pairs to bytes, most significant nibble first. -/
def hexPairsToBytes : List Char → List ℕ
  | [] => []
  | [_] => []
  | c1 :: c2 :: rest => (hexVal c1 * 16 + hexVal c2) :: hexPairsToBytes rest

/-- Parse a `0x`-prefixed 64-hex-digit string into its 32 bytes, as the
typed-data encoder does for a `bytes32` field; anything else raises. -/
def hexStrToBytes32 (s : String) : Option (List ℕ) :=
  match s.data with
  | '0' :: 'x' :: rest =>
      if rest.length == 64 && rest.all (fun c => decide (c ∈ hexDigits)) then
        some (hexPairsToBytes rest)
      else none
  | _ => none

/-- `bytes.fromhex`: an even-length string of hex digits (surrounding
whitespace handling is elided); anything else raises. -/
def pyBytesFromHex (s : String) : Option (List ℕ) :=
  if s.data.length % 2 == 0 && s.data.all (fun c => decide (c ∈ hexDigits)) then
    some (hexPairsToBytes s.data)
  else none

/-- The signature hex handling of the verifier (signing.py lines 272-276):
strip a `0x` prefix when present. -/
def strip0x (s : String) : String :=
  match s.data with
  | '0' :: 'x' :: rest => ⟨rest⟩
  | _ => s

/-- `hashStruct` preimage of the canonical `FeeAuthorization` struct: the
type hash followed by the four encoded fields (`orderId` as 32 bytes,
`payer` as an address word, the two numbers as `uint256` words). -/
def encodeFeeAuthStruct (K : List ℕ → List (Fin 256)) (c : CanonicalFeeAuth) :
    Option (List ℕ) :=
  (hexStrToBytes32 c.orderId).bind fun oid =>
  (addressWord c.payer).bind fun pw =>
  some (((K (asciiBytes
      "FeeAuthorization(bytes32 orderId,address payer,uint256 feeAmount,uint256 deadline)")).map
      Fin.val)
    ++ oid ++ pw ++ beBytes 32 c.feeAmount ++ beBytes 32 c.deadline)

/-- EIP-712 domain separator for the domain built by `create_eip712_domain`
(signing.py lines 32-53): name `DomeFeeEscrow`, version `1`, the chain id
and the checksummed verifying contract. -/
def domainSeparator (K : List ℕ → List (Fin 256)) (escrow_address : String)
    (chain_id : ℤ) : Option (List ℕ) :=
  (word256 chain_id).bind fun cw =>
  (addressWord (to_checksum_address K escrow_address)).bind fun aw =>
  some ((K (((K (asciiBytes
      "EIP712Domain(string name,string version,uint256 chainId,address verifyingContract)")).map
      Fin.val)
    ++ ((K (asciiBytes "DomeFeeEscrow")).map Fin.val)
    ++ ((K (asciiBytes "1")).map Fin.val)
    ++ cw ++ aw)).map Fin.val)

/-- The EIP-712 digest `keccak(0x19 || 0x01 || domainSeparator ||
hashStruct(message))` computed by `encode_typed_data`; `none` models the
encoder raising on an uninterpretable message or domain. -/
def eip712Digest (K : List ℕ → List (Fin 256)) (escrow_address : String)
    (chain_id : ℤ) (m : TDMessage) : Option (List ℕ) :=
  (canonicalFeeAuthMessage m).bind fun c =>
  (encodeFeeAuthStruct K c).bind fun se =>
  (domainSeparator K escrow_address chain_id).bind fun ds =>
  some ((K (25 :: 1 :: (ds ++ ((K se).map Fin.val)))).map Fin.val)

/-- The `try` block of `verify_fee_authorization_signature` (signing.py
lines 267-280): encode the typed data, decode the signature hex, recover
the signer and compare case insensitively; every failure collapses to
`false`. `R` is the external public-key recovery collaborator
(`Account.recover_message`), mapping digest and signature bytes to the
recovered address, `none` when recovery raises. -/
def try_recover_and_compare (K : List ℕ → List (Fin 256))
    (R : List ℕ → List ℕ → Option String) (sa : SignedFeeAuthorization)
    (escrow_address : String) (chain_id : ℤ) (expected_signer : String) : Bool :=
  match eip712Digest K escrow_address chain_id (verify_reconstructed_message sa) with
  | none => false
  | some digest =>
      match pyBytesFromHex (strip0x sa.signature) with
      | none => false
      | some sigBytes =>
          match R digest sigBytes with
          | none => false
          | some recovered => pyLower recovered == pyLower expected_signer

/-- `verify_fee_authorization_signature` (signing.py lines 223-280): the
domain is constructed by `create_eip712_domain` BEFORE the `try` block, so
an invalid escrow address raises `ValueError` out of the verifier; only the
failures inside the `try` block collapse to `false`. -/
def verify_fee_authorization_signature (K : List ℕ → List (Fin 256))
    (R : List ℕ → List ℕ → Option String) (sa : SignedFeeAuthorization)
    (escrow_address : String) (chain_id : ℤ) (expected_signer : String) :
    Except EscrowError Bool :=
  if is_address K escrow_address = false then
    .error (.invalidEscrowAddress escrow_address)
  else .ok (try_recover_and_compare K R sa escrow_address chain_id expected_signer)

/-! ## Claim theorems: C4 -/

/-- C4 counterexample: with a malformed escrow address the verifier raises
(`ValueError` from `create_eip712_domain`, modeled as an `Except.error`)
instead of returning `false`: the domain construction happens before the
`try` block. -/
theorem verify_signature_raises_on_bad_escrow_cex :
    verify_fee_authorization_signature keccakZero (fun _ _ => none)
      ⟨"0xab", addrLowA, 2500, 1700003600, "0xdeadbeef"⟩ "not-an-address" 137 addrLowA
      = .error (.invalidEscrowAddress "not-an-address") := by
  rfl

/-- C4 (amended): `verify_order_id` never raises: any error during
recomputation yields `false`. `verify_fee_authorization_signature` catches
every failure inside signature reconstruction, decoding and recovery and
returns a boolean, but raises a `ValueError` exactly when `escrow_address`
is not a well-formed address, because the domain is built before the `try`
block. -/
theorem verification_predicates_error_behavior (K : List ℕ → List (Fin 256))
    (R : List ℕ → List ℕ → Option String) (order_id : String) (p : OrderParams)
    (sa : SignedFeeAuthorization) (escrow_address : String) (chain_id : ℤ)
    (expected_signer : String) :
    (∀ e, generate_order_id K p = .error e → verify_order_id K order_id p = false) ∧
    ((verify_fee_authorization_signature K R sa escrow_address chain_id
        expected_signer).isOk = is_address K escrow_address) ∧
    (is_address K escrow_address = false →
      verify_fee_authorization_signature K R sa escrow_address chain_id expected_signer
        = .error (.invalidEscrowAddress escrow_address)) := by
  refine ⟨fun e he => ?_, ?_, fun hbad => ?_⟩
  · unfold verify_order_id
    rw [he]
  · unfold verify_fee_authorization_signature
    rcases h : is_address K escrow_address with _ | _
    · rfl
    · rfl
  · unfold verify_fee_authorization_signature
    rw [hbad]
    rfl

theorem verification_predicates_error_behavior_witness :
    generate_order_id keccakZero ⟨addrLowA, [], [], 0, 2, 0, 137⟩
      = .error (.invalidPrice 2) ∧
    verify_order_id keccakZero "0xab" ⟨addrLowA, [], [], 0, 2, 0, 137⟩ = false ∧
    (verify_fee_authorization_signature keccakZero (fun _ _ => none)
      ⟨"0xab", addrLowA, 2500, 1700003600, "0xdeadbeef"⟩ addrLowA 137 addrLowA).isOk
      = is_address keccakZero addrLowA :=
  ⟨by rfl,
    (verification_predicates_error_behavior keccakZero (fun _ _ => none) "0xab"
      ⟨addrLowA, [], [], 0, 2, 0, 137⟩ ⟨"0xab", addrLowA, 2500, 1700003600, "0xdeadbeef"⟩
      addrLowA 137 addrLowA).1 (.invalidPrice 2) (by rfl),
    (verification_predicates_error_behavior keccakZero (fun _ _ => none) "0xab"
      ⟨addrLowA, [], [], 0, 2, 0, 137⟩ ⟨"0xab", addrLowA, 2500, 1700003600, "0xdeadbeef"⟩
      addrLowA 137 addrLowA).2.1⟩

/-! ## Injectivity of the ABI encoding -/

theorem beBytes_length (w : ℕ) : ∀ n, (beBytes w n).length = w := by
  induction w with
  | zero => intro n; rfl
  | succ w ih =>
      intro n
      simp [beBytes, ih]

theorem ofBase_beBytes (w : ℕ) : ∀ n, ofBase 256 (beBytes w n) = n % 256 ^ w := by
  induction w with
  | zero => intro n; simp [beBytes, ofBase, Nat.mod_one]
  | succ w ih =>
      intro n
      rw [beBytes, ofBase_append_singleton, ih]
      have hms : 256 ^ (w + 1) = 256 * 256 ^ w := by ring
      rw [hms, Nat.mod_mul]
      ring

theorem beBytes_inj {w n m : ℕ} (hn : n < 256 ^ w) (hm : m < 256 ^ w)
    (h : beBytes w n = beBytes w m) : n = m := by
  have h1 := congrArg (ofBase 256) h
  rw [ofBase_beBytes, ofBase_beBytes, Nat.mod_eq_of_lt hn, Nat.mod_eq_of_lt hm] at h1
  exact h1

theorem ofBase_lt {B : ℕ} (hB : 0 < B) : ∀ {l : List ℕ}, (∀ d ∈ l, d < B) →
    ofBase B l < B ^ l.length := by
  intro l
  induction l with
  | nil => intro _; simpa [ofBase] using Nat.pos_pow_of_pos 0 hB
  | cons d t ih =>
      intro hl
      have h1 : ofBase B t < B ^ t.length := ih (fun e he => hl e (List.mem_cons_of_mem d he))
      have h2 : d + 1 ≤ B := hl d (List.mem_cons_self d t)
      have h3 : d * B ^ t.length + ofBase B t < (d + 1) * B ^ t.length := by
        have := h1
        nlinarith
      have h4 : (d + 1) * B ^ t.length ≤ B * B ^ t.length :=
        Nat.mul_le_mul_right _ h2
      have h5 : B * B ^ t.length = B ^ (t.length + 1) := by ring
      show d * B ^ t.length + ofBase B t < B ^ (d :: t).length
      simp only [List.length_cons]
      omega

theorem ofBase_inj {B : ℕ} (hB : 0 < B) : ∀ {l1 l2 : List ℕ},
    (∀ d ∈ l1, d < B) → (∀ d ∈ l2, d < B) → l1.length = l2.length →
    ofBase B l1 = ofBase B l2 → l1 = l2 := by
  intro l1
  induction l1 with
  | nil =>
      intro l2 _ _ hlen _
      exact (List.length_eq_zero.mp hlen.symm).symm
  | cons d t ih =>
      intro l2 hd1 hd2 hlen hval
      rcases l2 with _ | ⟨e, s⟩
      · exact absurd hlen (by simp)
      · have hts : t.length = s.length := by simpa using hlen
        have hrt : ofBase B t < B ^ t.length :=
          ofBase_lt hB (fun x hx => hd1 x (List.mem_cons_of_mem d hx))
        have hrs : ofBase B s < B ^ t.length := by
          rw [hts]
          exact ofBase_lt hB (fun x hx => hd2 x (List.mem_cons_of_mem e hx))
        have hval2 : d * B ^ t.length + ofBase B t = e * B ^ t.length + ofBase B s := by
          simpa [ofBase, hts] using hval
        have hBp : 0 < B ^ t.length := Nat.pos_pow_of_pos _ hB
        have hde : d = e := by
          have hdv : (d * B ^ t.length + ofBase B t) / B ^ t.length = d := by
            rw [Nat.mul_comm d, Nat.mul_add_div hBp, Nat.div_eq_of_lt hrt]
            omega
          have hev : (e * B ^ t.length + ofBase B s) / B ^ t.length = e := by
            rw [Nat.mul_comm e, Nat.mul_add_div hBp, Nat.div_eq_of_lt hrs]
            omega
          rw [← hdv, ← hev, hval2]
        subst hde
        have hts2 : ofBase B t = ofBase B s := by omega
        have := ih (fun x hx => hd1 x (List.mem_cons_of_mem d hx))
          (fun x hx => hd2 x (List.mem_cons_of_mem d hx)) hts hts2
        rw [this]

theorem encBytesItem_length (bs : List ℕ) :
    (encBytesItem bs).length = 32 + bs.length + padLen bs.length := by
  simp [encBytesItem, beBytes_length]
  omega

theorem pow256_32 : (256 : ℕ) ^ 32 = 2 ^ 256 := by norm_num

theorem encBytesItem_inj {bs1 bs2 : List ℕ} (h1 : bs1.length < 2 ^ 256)
    (h2 : bs2.length < 2 ^ 256) (h : encBytesItem bs1 = encBytesItem bs2) : bs1 = bs2 := by
  unfold encBytesItem at h
  have hlw : beBytes 32 bs1.length = beBytes 32 bs2.length ∧
      bs1 ++ List.replicate (padLen bs1.length) 0
        = bs2 ++ List.replicate (padLen bs2.length) 0 := by
    have := List.append_inj (by simpa [List.append_assoc] using h)
      (by rw [beBytes_length, beBytes_length])
    simpa using this
  have hlen : bs1.length = bs2.length :=
    beBytes_inj (pow256_32 ▸ h1) (pow256_32 ▸ h2) hlw.1
  exact (List.append_inj hlw.2 hlen).1

/-! ## Hex character facts -/

theorem hexVal_lt (c : Char) : hexVal c < 16 := by
  unfold hexVal
  split <;> omega

theorem toLower_mem_lowerHex : ∀ c ∈ hexDigits, c.toLower ∈ lowerHexDigits := by decide

theorem toLower_fix_lowerHex : ∀ c ∈ lowerHexDigits, c.toLower = c := by decide

theorem toUpper_toLower_lowerHex : ∀ c ∈ lowerHexDigits, c.toUpper.toLower = c := by decide

theorem hexVal_toUpper_lowerHex : ∀ c ∈ lowerHexDigits, hexVal c.toUpper = hexVal c := by
  decide

theorem toUpper_mem_hexDigits : ∀ c ∈ lowerHexDigits, c.toUpper ∈ hexDigits := by decide

theorem lowerHex_mem_hexDigits : ∀ c ∈ lowerHexDigits, c ∈ hexDigits := by decide

theorem hexVal_inj_lowerHex :
    ∀ c1 ∈ lowerHexDigits, ∀ c2 ∈ lowerHexDigits, hexVal c1 = hexVal c2 → c1 = c2 := by
  decide

/-! ## Checksum recasing facts -/

theorem checksumGo_map_hexVal (h : List (Fin 256)) :
    ∀ (i : ℕ) (l : List Char), (∀ c ∈ l, c ∈ lowerHexDigits) →
      (checksumGo h i l).map hexVal = l.map hexVal := by
  intro i l
  induction l generalizing i with
  | nil => intro _; rfl
  | cons c t ih =>
      intro hmem
      have hc : c ∈ lowerHexDigits := hmem c (List.mem_cons_self c t)
      show hexVal (if 7 < nibbleAt h i then c.toUpper else c)
          :: (checksumGo h (i + 1) t).map hexVal = hexVal c :: t.map hexVal
      rw [ih (i + 1) (fun x hx => hmem x (List.mem_cons_of_mem c hx))]
      rcases Nat.lt_or_ge 7 (nibbleAt h i) with hlt | hge
      · rw [if_pos hlt, hexVal_toUpper_lowerHex c hc]
      · rw [if_neg (by omega)]

theorem checksumGo_map_toLower (h : List (Fin 256)) :
    ∀ (i : ℕ) (l : List Char), (∀ c ∈ l, c ∈ lowerHexDigits) →
      (checksumGo h i l).map Char.toLower = l := by
  intro i l
  induction l generalizing i with
  | nil => intro _; rfl
  | cons c t ih =>
      intro hmem
      have hc : c ∈ lowerHexDigits := hmem c (List.mem_cons_self c t)
      show (if 7 < nibbleAt h i then c.toUpper else c).toLower
          :: (checksumGo h (i + 1) t).map Char.toLower = c :: t
      rw [ih (i + 1) (fun x hx => hmem x (List.mem_cons_of_mem c hx))]
      rcases Nat.lt_or_ge 7 (nibbleAt h i) with hlt | hge
      · rw [if_pos hlt, toUpper_toLower_lowerHex c hc]
      · rw [if_neg (by omega), toLower_fix_lowerHex c hc]

theorem checksumGo_length (h : List (Fin 256)) :
    ∀ (i : ℕ) (l : List Char), (checksumGo h i l).length = l.length := by
  intro i l
  induction l generalizing i with
  | nil => rfl
  | cons c t ih => simp [checksumGo, ih]

/-! ## Shape of a hex address -/

theorem isHexAddress_mk_cons (c0 c1 : Char) (cs : List Char) :
    isHexAddress ⟨c0 :: c1 :: cs⟩
      = (c0 == '0' && c1 == 'x' && cs.length == 40 &&
          cs.all (fun c => decide (c ∈ hexDigits))) := rfl

theorem isHexAddress_elim {s : String} (h : isHexAddress s = true) :
    ∃ rest, s.data = '0' :: 'x' :: rest ∧ rest.length = 40 ∧ ∀ c ∈ rest, c ∈ hexDigits := by
  obtain ⟨data⟩ := s
  rcases data with _ | ⟨c0, _ | ⟨c1, rest⟩⟩
  · exact absurd h Bool.false_ne_true
  · exact absurd h Bool.false_ne_true
  · rw [isHexAddress_mk_cons] at h
    simp only [Bool.and_eq_true, beq_iff_eq, List.all_eq_true, decide_eq_true_eq] at h
    obtain ⟨⟨⟨h0, h1⟩, h40⟩, hall⟩ := h
    refine ⟨rest, ?_, h40, hall⟩
    show c0 :: c1 :: rest = '0' :: 'x' :: rest
    rw [h0, h1]

theorem addrValue_lt {s : String} (h : isHexAddress s = true) : addrValue s < 2 ^ 256 := by
  obtain ⟨rest, hdata, h40, _⟩ := isHexAddress_elim h
  unfold addrValue
  rw [hdata]
  show ofBase 16 (rest.map (fun c => hexVal c)) < 2 ^ 256
  have hdig : ∀ d ∈ rest.map (fun c => hexVal c), d < 16 := by
    intro d hd
    rw [List.mem_map] at hd
    obtain ⟨c, _, rfl⟩ := hd
    exact hexVal_lt c
  have hlt : ofBase 16 (rest.map (fun c => hexVal c))
      < 16 ^ (rest.map (fun c => hexVal c)).length := ofBase_lt (by norm_num) hdig
  have hlen : (rest.map (fun c => hexVal c)).length = 40 := by simp [h40]
  rw [hlen] at hlt
  calc ofBase 16 (rest.map (fun c => hexVal c)) < 16 ^ 40 := hlt
    _ ≤ 2 ^ 256 := by norm_num

theorem checksumGo_mem_hexDigits (h : List (Fin 256)) :
    ∀ (i : ℕ) (l : List Char), (∀ c ∈ l, c ∈ lowerHexDigits) →
      ∀ c ∈ checksumGo h i l, c ∈ hexDigits := by
  intro i l
  induction l generalizing i with
  | nil =>
      intro _ c hc
      cases hc
  | cons d t ih =>
      intro hmem c hc
      have hd : d ∈ lowerHexDigits := hmem d (List.mem_cons_self d t)
      rcases List.mem_cons.mp hc with hhead | htail
      · subst hhead
        rcases Nat.lt_or_ge 7 (nibbleAt h i) with hlt | hge
        · rw [if_pos hlt]
          exact toUpper_mem_hexDigits d hd
        · rw [if_neg (by omega)]
          exact lowerHex_mem_hexDigits d hd
      · exact ih (i + 1) (fun x hx => hmem x (List.mem_cons_of_mem d hx)) c htail

theorem to_checksum_address_data (K : List ℕ → List (Fin 256)) (s : String) :
    to_checksum_address K s
      = ⟨'0' :: 'x' :: checksumGo (K (((s.data.drop 2).map Char.toLower).map Char.toNat)) 0
        ((s.data.drop 2).map Char.toLower)⟩ := rfl

theorem addrValue_mk_cons (c0 c1 : Char) (cs : List Char) :
    addrValue ⟨c0 :: c1 :: cs⟩ = ofBase 16 (cs.map (fun c => hexVal c)) := rfl

theorem lower_drop_mem {s : String} (h : isHexAddress s = true) :
    ∀ c ∈ (s.data.drop 2).map Char.toLower, c ∈ lowerHexDigits := by
  obtain ⟨rest, hdata, _, hmem⟩ := isHexAddress_elim h
  have hrest : s.data.drop 2 = rest := by
    rw [hdata]
    rfl
  rw [hrest]
  intro c hc
  rw [List.mem_map] at hc
  obtain ⟨d, hd, rfl⟩ := hc
  exact toLower_mem_lowerHex d (hmem d hd)

theorem to_checksum_isHexAddress {K : List ℕ → List (Fin 256)} {s : String}
    (h : isHexAddress s = true) : isHexAddress (to_checksum_address K s) = true := by
  obtain ⟨rest, hdata, h40, _⟩ := isHexAddress_elim h
  have hrest : s.data.drop 2 = rest := by
    rw [hdata]
    rfl
  rw [to_checksum_address_data, isHexAddress_mk_cons]
  simp only [Bool.and_eq_true, beq_iff_eq, List.all_eq_true, decide_eq_true_eq,
    beq_self_eq_true, true_and, Nat.beq_eq_true_eq]
  constructor
  · rw [checksumGo_length, List.length_map, hrest, h40]
  · exact checksumGo_mem_hexDigits _ 0 _ (lower_drop_mem h)

theorem addrValue_to_checksum {K : List ℕ → List (Fin 256)} {s : String}
    (h : isHexAddress s = true) :
    addrValue (to_checksum_address K s)
      = ofBase 16 (((s.data.drop 2).map Char.toLower).map (fun c => hexVal c)) := by
  rw [to_checksum_address_data, addrValue_mk_cons]
  exact congrArg (ofBase 16) (checksumGo_map_hexVal _ 0 _ (lower_drop_mem h))

theorem to_checksum_lower {K : List ℕ → List (Fin 256)} {s : String}
    (h : isHexAddress s = true) :
    ((to_checksum_address K s).data.drop 2).map Char.toLower
      = (s.data.drop 2).map Char.toLower := by
  rw [to_checksum_address_data]
  exact checksumGo_map_toLower _ 0 _ (lower_drop_mem h)

/-! ## Characterization and injectivity of `abiEncode7` -/

theorem word256_elim {n : ℤ} {w : List ℕ} (h : word256 n = some w) :
    (0 ≤ n ∧ n < 2 ^ 256) ∧ w = beBytes 32 n.toNat := by
  unfold word256 at h
  split at h
  · exact ⟨by assumption, (Option.some_inj.mp h).symm⟩
  · cases h

theorem addressWord_elim {s : String} {w : List ℕ} (h : addressWord s = some w) :
    isHexAddress s = true ∧ w = beBytes 32 (addrValue s) := by
  unfold addressWord at h
  split at h
  · exact ⟨by assumption, (Option.some_inj.mp h).symm⟩
  · cases h

theorem int_toNat_lt_pow {n : ℤ} (h0 : 0 ≤ n) (h1 : n < 2 ^ 256) :
    n.toNat < 2 ^ 256 := by
  have hc : ((2 ^ 256 : ℕ) : ℤ) = 2 ^ 256 := by norm_cast
  omega

theorem abiEncode7_elim {chain_id : ℤ} {addr : String} {market_id side : List ℕ}
    {size priceBps timestamp : ℤ} {l : List ℕ}
    (h : abiEncode7 chain_id addr market_id side size priceBps timestamp = some l) :
    (0 ≤ chain_id ∧ chain_id < 2 ^ 256) ∧ isHexAddress addr = true ∧
    (0 ≤ size ∧ size < 2 ^ 256) ∧ (0 ≤ priceBps ∧ priceBps < 2 ^ 256) ∧
    (0 ≤ timestamp ∧ timestamp < 2 ^ 256) ∧
    market_id.length < 2 ^ 256 ∧ side.length < 2 ^ 256 ∧
    224 + (encBytesItem market_id).length < 2 ^ 256 ∧
    l = beBytes 32 chain_id.toNat ++ beBytes 32 (addrValue addr) ++ beBytes 32 224
      ++ beBytes 32 (224 + (encBytesItem market_id).length) ++ beBytes 32 size.toNat
      ++ beBytes 32 priceBps.toNat ++ beBytes 32 timestamp.toNat
      ++ encBytesItem market_id ++ encBytesItem side := by
  unfold abiEncode7 at h
  obtain ⟨w1, hw1, h⟩ := Option.bind_eq_some.mp h
  obtain ⟨w2, hw2, h⟩ := Option.bind_eq_some.mp h
  obtain ⟨w5, hw5, h⟩ := Option.bind_eq_some.mp h
  obtain ⟨w6, hw6, h⟩ := Option.bind_eq_some.mp h
  obtain ⟨w7, hw7, h⟩ := Option.bind_eq_some.mp h
  obtain ⟨hc, hw1e⟩ := word256_elim hw1
  obtain ⟨ha, hw2e⟩ := addressWord_elim hw2
  obtain ⟨hz, hw5e⟩ := word256_elim hw5
  obtain ⟨hb, hw6e⟩ := word256_elim hw6
  obtain ⟨ht, hw7e⟩ := word256_elim hw7
  split at h
  · refine ⟨hc, ha, hz, hb, ht, ?_, ?_, ?_, ?_⟩
    · exact (by assumption : _ ∧ _ ∧ _).1
    · exact (by assumption : _ ∧ _ ∧ _).2.1
    · exact (by assumption : _ ∧ _ ∧ _).2.2
    · rw [← Option.some_inj.mp h, hw1e, hw2e, hw5e, hw6e, hw7e]
  · cases h

theorem append_head_eq {a b x y : List ℕ} (h : a ++ x = b ++ y)
    (hlen : a.length = b.length) : a = b ∧ x = y :=
  List.append_inj h hlen

theorem abiEncode7_inj {c1 c2 : ℤ} {a1 a2 : String} {m1 m2 s1 s2 : List ℕ}
    {z1 z2 b1 b2 t1 t2 : ℤ} {l : List ℕ}
    (h1 : abiEncode7 c1 a1 m1 s1 z1 b1 t1 = some l)
    (h2 : abiEncode7 c2 a2 m2 s2 z2 b2 t2 = some l) :
    c1 = c2 ∧ addrValue a1 = addrValue a2 ∧ m1 = m2 ∧ s1 = s2 ∧
    z1 = z2 ∧ b1 = b2 ∧ t1 = t2 := by
  obtain ⟨⟨hc01, hc11⟩, ha1, ⟨hz01, hz11⟩, ⟨hb01, hb11⟩, ⟨ht01, ht11⟩, hm1, hs1, ho1, hl1⟩ :=
    abiEncode7_elim h1
  obtain ⟨⟨hc02, hc12⟩, ha2, ⟨hz02, hz12⟩, ⟨hb02, hb12⟩, ⟨ht02, ht12⟩, hm2, hs2, ho2, hl2⟩ :=
    abiEncode7_elim h2
  have heq := hl1.symm.trans hl2
  simp only [List.append_assoc] at heq
  have p1 := append_head_eq heq (by simp [beBytes_length])
  have p2 := append_head_eq p1.2 (by simp [beBytes_length])
  have p3 := append_head_eq p2.2 (by simp [beBytes_length])
  have p4 := append_head_eq p3.2 (by simp [beBytes_length])
  have p5 := append_head_eq p4.2 (by simp [beBytes_length])
  have p6 := append_head_eq p5.2 (by simp [beBytes_length])
  have p7 := append_head_eq p6.2 (by simp [beBytes_length])
  have hcn : c1.toNat = c2.toNat :=
    beBytes_inj (pow256_32 ▸ int_toNat_lt_pow hc01 hc11)
      (pow256_32 ▸ int_toNat_lt_pow hc02 hc12) p1.1
  have hc : c1 = c2 := by omega
  have hav : addrValue a1 = addrValue a2 :=
    beBytes_inj (pow256_32 ▸ addrValue_lt ha1) (pow256_32 ▸ addrValue_lt ha2) p2.1
  have hoff : 224 + (encBytesItem m1).length = 224 + (encBytesItem m2).length :=
    beBytes_inj (pow256_32 ▸ ho1) (pow256_32 ▸ ho2) p4.1
  have htail := append_head_eq p7.2 (by omega)
  have hm : m1 = m2 := encBytesItem_inj hm1 hm2 htail.1
  have hs : s1 = s2 := encBytesItem_inj hs1 hs2 htail.2
  have hzn : z1.toNat = z2.toNat :=
    beBytes_inj (pow256_32 ▸ int_toNat_lt_pow hz01 hz11)
      (pow256_32 ▸ int_toNat_lt_pow hz02 hz12) p5.1
  have hbn : b1.toNat = b2.toNat :=
    beBytes_inj (pow256_32 ▸ int_toNat_lt_pow hb01 hb11)
      (pow256_32 ▸ int_toNat_lt_pow hb02 hb12) p6.1
  have htn : t1.toNat = t2.toNat :=
    beBytes_inj (pow256_32 ▸ int_toNat_lt_pow ht01 ht11)
      (pow256_32 ▸ int_toNat_lt_pow ht02 ht12) p7.1
  exact ⟨hc, hav, hm, hs, by omega, by omega, by omega⟩

/-! ## Facts about generated identifiers -/

theorem is_address_isHexAddress {K : List ℕ → List (Fin 256)} {s : String}
    (h : is_address K s = true) : isHexAddress s = true := by
  simp only [is_address, Bool.and_eq_true] at h
  exact h.1

/-- Evaluation helper: once the price checks pass, the address is valid, and
the rounded basis points are known, `generate_order_id` is the hash of the
ABI encoding. -/
theorem generate_order_id_eval (K : List ℕ → List (Fin 256)) (p : OrderParams) (bps : ℤ)
    (hp0 : ¬ (p.price < 0 ∨ 1 < p.price))
    (haddr : is_address K p.user_address = true)
    (hbps : pythonRound (p.price * 10000) = bps) :
    generate_order_id K p =
      match abiEncode7 p.chain_id (to_checksum_address K p.user_address) p.market_id p.side
          p.size bps p.timestamp with
      | some encoded => .ok ⟨'0' :: 'x' :: byteHexChars (K encoded)⟩
      | none => .error .valueOutOfBounds := by
  unfold generate_order_id
  rw [if_neg hp0, haddr, hbps]
  simp only [Bool.true_eq_false, if_false]

theorem generate_ok_elim {K : List ℕ → List (Fin 256)} {p : OrderParams} {id : String}
    (h : generate_order_id K p = .ok id) :
    is_address K p.user_address = true ∧
    ∃ enc, abiEncode7 p.chain_id (to_checksum_address K p.user_address) p.market_id p.side
        p.size (pythonRound (p.price * 10000)) p.timestamp = some enc ∧
      id = ⟨'0' :: 'x' :: byteHexChars (K enc)⟩ := by
  unfold generate_order_id at h
  split at h
  · cases h
  · next hfalse =>
      have haddr : is_address K p.user_address = true := by
        rcases hb : is_address K p.user_address with _ | _
        · rw [hb] at h
          simp at h
        · rfl
      rw [haddr] at h
      simp only [Bool.true_eq_false, if_false] at h
      refine ⟨haddr, ?_⟩
      rcases henc : abiEncode7 p.chain_id (to_checksum_address K p.user_address) p.market_id
          p.side p.size (pythonRound (p.price * 10000)) p.timestamp with _ | enc
      · rw [henc] at h
        cases h
      · rw [henc] at h
        injection h with h
        exact ⟨enc, rfl, h.symm⟩

theorem byteHexChars_mem (bs : List (Fin 256)) :
    ∀ c ∈ byteHexChars bs, c ∈ lowerHexDigits := by
  induction bs with
  | nil =>
      intro c hc
      cases hc
  | cons b t ih =>
      intro c hc
      have hshape : byteHexChars (b :: t) = lowerHexDigits.getD (b.val / 16) '0'
          :: lowerHexDigits.getD (b.val % 16) '0' :: byteHexChars t := rfl
      rw [hshape] at hc
      have hgd : ∀ k < 16, lowerHexDigits.getD k '0' ∈ lowerHexDigits := by decide
      have hb256 := b.isLt
      rcases List.mem_cons.mp hc with h1 | hc2
      · exact h1 ▸ hgd _ (by omega)
      · rcases List.mem_cons.mp hc2 with h2 | h3
        · exact h2 ▸ hgd _ (by omega)
        · exact ih c h3

theorem byteHexChars_inj : ∀ {b1 b2 : List (Fin 256)},
    byteHexChars b1 = byteHexChars b2 → b1 = b2 := by
  intro b1
  induction b1 with
  | nil =>
      intro b2 h
      rcases b2 with _ | ⟨e, s⟩
      · rfl
      · cases h
  | cons d t ih =>
      intro b2 h
      rcases b2 with _ | ⟨e, s⟩
      · cases h
      · have h2 : lowerHexDigits.getD (d.val / 16) '0'
            :: lowerHexDigits.getD (d.val % 16) '0' :: byteHexChars t
            = lowerHexDigits.getD (e.val / 16) '0'
            :: lowerHexDigits.getD (e.val % 16) '0' :: byteHexChars s := h
        injection h2 with hh ht2
        injection ht2 with hl htt
        have hgdinj : ∀ a < 16, ∀ b < 16,
            lowerHexDigits.getD a '0' = lowerHexDigits.getD b '0' → a = b := by decide
        have hd256 := d.isLt
        have he256 := e.isLt
        have e1 := hgdinj _ (by omega) _ (by omega) hh
        have e2 := hgdinj _ (by omega) _ (by omega) hl
        have hde : d = e := Fin.ext (by omega)
        rw [hde, ih htt]

theorem pyLower_hex_id (bs : List (Fin 256)) :
    pyLower ⟨'0' :: 'x' :: byteHexChars bs⟩ = ⟨'0' :: 'x' :: byteHexChars bs⟩ := by
  unfold pyLower
  show String.mk (('0' :: 'x' :: byteHexChars bs).map Char.toLower) = _
  have hmap : (byteHexChars bs).map Char.toLower = byteHexChars bs :=
    (List.map_congr_left
      (fun c hc => toLower_fix_lowerHex c (byteHexChars_mem bs c hc))).trans
      (List.map_id _)
  simp only [List.map_cons]
  rw [hmap]
  rfl

theorem map_hexVal_inj : ∀ {l1 l2 : List Char},
    (∀ c ∈ l1, c ∈ lowerHexDigits) → (∀ c ∈ l2, c ∈ lowerHexDigits) →
    l1.map (fun c => hexVal c) = l2.map (fun c => hexVal c) → l1 = l2 := by
  intro l1
  induction l1 with
  | nil =>
      intro l2 _ _ h
      rcases l2 with _ | ⟨d, u⟩
      · rfl
      · cases h
  | cons c t ih =>
      intro l2 h1 h2 h
      rcases l2 with _ | ⟨d, u⟩
      · cases h
      · simp only [List.map_cons] at h
        injection h with hh ht
        rw [hexVal_inj_lowerHex c (h1 c (List.mem_cons_self c t)) d
          (h2 d (List.mem_cons_self d u)) hh,
          ih (fun x hx => h1 x (List.mem_cons_of_mem c hx))
            (fun x hx => h2 x (List.mem_cons_of_mem d hx)) ht]

/-- Lowercase forms of two valid addresses with equal encoded address words
coincide. -/
theorem addrValue_lower_inj {K : List ℕ → List (Fin 256)} {s1 s2 : String}
    (h1 : isHexAddress s1 = true) (h2 : isHexAddress s2 = true)
    (hav : addrValue (to_checksum_address K s1) = addrValue (to_checksum_address K s2)) :
    (s1.data.drop 2).map Char.toLower = (s2.data.drop 2).map Char.toLower := by
  rw [addrValue_to_checksum h1, addrValue_to_checksum h2] at hav
  obtain ⟨rest1, hd1, h401, _⟩ := isHexAddress_elim h1
  obtain ⟨rest2, hd2, h402, _⟩ := isHexAddress_elim h2
  have hlen1 : (s1.data.drop 2).length = 40 := by
    rw [hd1]
    simp [h401]
  have hlen2 : (s2.data.drop 2).length = 40 := by
    rw [hd2]
    simp [h402]
  have hdig : ∀ (l : List Char), ∀ d ∈ l.map (fun c => hexVal c), d < 16 := by
    intro l d hd
    rw [List.mem_map] at hd
    obtain ⟨c, _, rfl⟩ := hd
    exact hexVal_lt c
  have hmv := ofBase_inj (B := 16) (by norm_num) (hdig _) (hdig _)
    (by simp only [List.length_map]; rw [hlen1, hlen2]) hav
  exact map_hexVal_inj (lower_drop_mem h1) (lower_drop_mem h2) hmv

theorem pyLower_of_hexAddress {s1 s2 : String}
    (h1 : isHexAddress s1 = true) (h2 : isHexAddress s2 = true)
    (hlow : (s1.data.drop 2).map Char.toLower = (s2.data.drop 2).map Char.toLower) :
    pyLower s1 = pyLower s2 := by
  obtain ⟨rest1, hd1, _, _⟩ := isHexAddress_elim h1
  obtain ⟨rest2, hd2, _, _⟩ := isHexAddress_elim h2
  unfold pyLower
  rw [hd1, hd2]
  rw [hd1, hd2] at hlow
  simp only [List.drop_succ_cons, List.drop_zero] at hlow
  simp only [List.map_cons]
  rw [hlow]

/-! ## A single changed field -/

/-- Exactly one of the seven order parameters differs, the difference being
semantic: for the address, a different account (different lowercase form);
for the price, a different rounded basis-point value. -/
def SingleFieldChange (p q : OrderParams) : Prop :=
  (pyLower p.user_address ≠ pyLower q.user_address ∧ p.market_id = q.market_id ∧
    p.side = q.side ∧ p.size = q.size ∧ p.price = q.price ∧
    p.timestamp = q.timestamp ∧ p.chain_id = q.chain_id) ∨
  (p.user_address = q.user_address ∧ p.market_id ≠ q.market_id ∧ p.side = q.side ∧
    p.size = q.size ∧ p.price = q.price ∧ p.timestamp = q.timestamp ∧
    p.chain_id = q.chain_id) ∨
  (p.user_address = q.user_address ∧ p.market_id = q.market_id ∧ p.side ≠ q.side ∧
    p.size = q.size ∧ p.price = q.price ∧ p.timestamp = q.timestamp ∧
    p.chain_id = q.chain_id) ∨
  (p.user_address = q.user_address ∧ p.market_id = q.market_id ∧ p.side = q.side ∧
    p.size ≠ q.size ∧ p.price = q.price ∧ p.timestamp = q.timestamp ∧
    p.chain_id = q.chain_id) ∨
  (p.user_address = q.user_address ∧ p.market_id = q.market_id ∧ p.side = q.side ∧
    p.size = q.size ∧ pythonRound (p.price * 10000) ≠ pythonRound (q.price * 10000) ∧
    p.timestamp = q.timestamp ∧ p.chain_id = q.chain_id) ∨
  (p.user_address = q.user_address ∧ p.market_id = q.market_id ∧ p.side = q.side ∧
    p.size = q.size ∧ p.price = q.price ∧ p.timestamp ≠ q.timestamp ∧
    p.chain_id = q.chain_id) ∨
  (p.user_address = q.user_address ∧ p.market_id = q.market_id ∧ p.side = q.side ∧
    p.size = q.size ∧ p.price = q.price ∧ p.timestamp = q.timestamp ∧
    p.chain_id ≠ q.chain_id)

/-! ## Claim theorems: C6 -/

/-- C6: `generate_order_id` is invariant under the casing of the user
address: two well-formed address strings with the same lowercase form (the
same 20-byte account), with all other parameters equal, generate the same
result, because the address is checksummed (from its lowercase form) before
encoding. -/
theorem generate_order_id_case_invariant (K : List ℕ → List (Fin 256))
    (p1 p2 : OrderParams)
    (haddr : pyLower p1.user_address = pyLower p2.user_address)
    (h1 : is_address K p1.user_address = true)
    (h2 : is_address K p2.user_address = true)
    (hm : p1.market_id = p2.market_id) (hs : p1.side = p2.side)
    (hz : p1.size = p2.size) (hp : p1.price = p2.price)
    (ht : p1.timestamp = p2.timestamp) (hc : p1.chain_id = p2.chain_id) :
    generate_order_id K p1 = generate_order_id K p2 := by
  have hlowdata : p1.user_address.data.map Char.toLower
      = p2.user_address.data.map Char.toLower := congrArg String.data haddr
  have hchk : to_checksum_address K p1.user_address
      = to_checksum_address K p2.user_address := by
    rw [to_checksum_address_data, to_checksum_address_data]
    have hdrop : (p1.user_address.data.drop 2).map Char.toLower
        = (p2.user_address.data.drop 2).map Char.toLower := by
      rw [List.map_drop, List.map_drop, hlowdata]
    rw [hdrop]
  unfold generate_order_id
  rw [hp, h1, h2, hchk, hm, hs, hz, ht, hc]
  simp only [Bool.true_eq_false, if_false]

/-- The all-uppercase spelling of the account of `addrLowA`; uppercase hex
addresses are accepted by `is_address` without a checksum test. -/
def addrUpA : String := "0xAAAAAAAAAAAAAAAAAAAAAAAAAAAAAAAAAAAAAAAA"

theorem generate_order_id_case_invariant_witness :
    pyLower addrLowA = pyLower addrUpA ∧
    is_address keccakZero addrLowA = true ∧
    is_address keccakZero addrUpA = true ∧
    generate_order_id keccakZero ⟨addrLowA, [49, 50], [98, 117, 121], 1000000, 1,
        1700000000000, 137⟩
      = generate_order_id keccakZero ⟨addrUpA, [49, 50], [98, 117, 121], 1000000, 1,
        1700000000000, 137⟩ :=
  ⟨by decide, by decide, by decide,
    generate_order_id_case_invariant keccakZero _ _ (by decide) (by decide) (by decide)
      rfl rfl rfl rfl rfl rfl⟩

/-! ## Claim theorems: C3 -/

/-- An injective concrete digest function: each input byte is transcribed in
unary with a separator, so distinct byte sequences have distinct digests.
It stands in for the collision-resistant Keccak-256 in witnesses. -/
def keccakUnary : List ℕ → List (Fin 256) :=
  fun bs => bs.flatMap (fun n => List.replicate n 1 ++ [0])

theorem unary_block_inj : ∀ (n : ℕ) {m : ℕ} {x y : List (Fin 256)},
    List.replicate n (1 : Fin 256) ++ 0 :: x = List.replicate m 1 ++ 0 :: y →
    n = m ∧ x = y := by
  intro n
  induction n with
  | zero =>
      intro m x y h
      rcases m with _ | m
      · simp only [List.replicate, List.nil_append] at h
        injection h with _ ht
        exact ⟨rfl, ht⟩
      · simp only [List.replicate, List.nil_append, List.cons_append] at h
        injection h with hh _
        cases hh
  | succ n ih =>
      intro m x y h
      rcases m with _ | m
      · simp only [List.replicate, List.nil_append, List.cons_append] at h
        injection h with hh _
        cases hh
      · simp only [List.replicate, List.cons_append] at h
        injection h with _ ht
        obtain ⟨hnm, hxy⟩ := ih ht
        exact ⟨by omega, hxy⟩

theorem keccakUnary_cons (n : ℕ) (t : List ℕ) :
    keccakUnary (n :: t) = List.replicate n 1 ++ 0 :: keccakUnary t := by
  unfold keccakUnary
  rw [List.flatMap_cons, List.append_assoc]
  rfl

theorem keccakUnary_injective : Function.Injective keccakUnary := by
  intro l1
  induction l1 with
  | nil =>
      intro l2 h
      rcases l2 with _ | ⟨m, t⟩
      · rfl
      · rw [keccakUnary_cons] at h
        have h2 : ([] : List (Fin 256)) = List.replicate m 1 ++ 0 :: keccakUnary t := h
        rcases m with _ | m
        · simp only [List.replicate, List.nil_append] at h2
          cases h2
        · simp only [List.replicate, List.cons_append] at h2
          cases h2
  | cons n t ih =>
      intro l2 h
      rcases l2 with _ | ⟨m, u⟩
      · rw [keccakUnary_cons] at h
        have h2 : List.replicate n (1 : Fin 256) ++ 0 :: keccakUnary t = [] := h
        rcases n with _ | n
        · simp only [List.replicate, List.nil_append] at h2
          cases h2
        · simp only [List.replicate, List.cons_append] at h2
          cases h2
      · rw [keccakUnary_cons, keccakUnary_cons] at h
        obtain ⟨hnm, htu⟩ := unary_block_inj n h
        rw [hnm, ih htu]

/-- C3 (amended): when `generate_order_id` succeeds on `p`, the produced
identifier verifies against `p`; and against any `p'` differing from `p` in
exactly one semantically relevant field — for the address a different
account, for the price a different rounded basis-point value —
verification returns `false`, assuming collision resistance of the hash
(modeled as injectivity of `K`). -/
theorem verify_order_id_roundtrip_and_field_change (K : List ℕ → List (Fin 256))
    (hK : Function.Injective K) (p q : OrderParams) (hch : SingleFieldChange p q)
    (hok : (generate_order_id K p).isOk = true) :
    (generate_order_id K p).map (fun id => verify_order_id K id p) = .ok true ∧
    (generate_order_id K p).map (fun id => verify_order_id K id q) = .ok false := by
  rcases hgen : generate_order_id K p with e | id
  · rw [hgen] at hok
    cases hok
  · constructor
    · show Except.ok (verify_order_id K id p) = Except.ok true
      congr 1
      unfold verify_order_id
      rw [hgen]
      exact beq_self_eq_true _
    · show Except.ok (verify_order_id K id q) = Except.ok false
      congr 1
      unfold verify_order_id
      rcases hgen2 : generate_order_id K q with e2 | id2
      · rfl
      · show (pyLower id2 == pyLower id) = false
        obtain ⟨haddrp, encp, hencp, hidp⟩ := generate_ok_elim hgen
        obtain ⟨haddrq, encq, hencq, hidq⟩ := generate_ok_elim hgen2
        have hhp := is_address_isHexAddress haddrp
        have hhq := is_address_isHexAddress haddrq
        have henc_ne : encp ≠ encq := by
          intro hEq
          rw [← hEq] at hencq
          obtain ⟨hc, hav, hm, hsd, hz, hb, ht⟩ := abiEncode7_inj hencp hencq
          rcases hch with ⟨hne, _⟩ | ⟨_, hne, _⟩ | ⟨_, _, hne, _⟩ | ⟨_, _, _, hne, _⟩ |
            ⟨_, _, _, _, hne, _⟩ | ⟨_, _, _, _, _, hne, _⟩ | ⟨_, _, _, _, _, _, hne⟩
          · exact hne (pyLower_of_hexAddress hhp hhq (addrValue_lower_inj hhp hhq hav))
          · exact hne hm
          · exact hne hsd
          · exact hne hz
          · exact hne hb
          · exact hne ht
          · exact hne hc
        have hKne : K encp ≠ K encq := fun h2 => henc_ne (hK h2)
        rw [hidp, hidq, pyLower_hex_id, pyLower_hex_id]
        rw [beq_eq_false_iff_ne]
        intro h2
        injection h2 with h3
        injection h3 with _ h4
        injection h4 with _ h5
        exact hKne (byteHexChars_inj h5).symm

/-- Concrete order parameters with an integral price of 1 dollar. -/
def opC3A : OrderParams :=
  ⟨addrLowA, [49, 50], [98, 117, 121], 1000000, 1, 1700000000000, 137⟩

/-- `opC3A` with only the timestamp advanced by one millisecond. -/
def opC3B : OrderParams :=
  ⟨addrLowA, [49, 50], [98, 117, 121], 1000000, 1, 1700000000001, 137⟩

set_option maxRecDepth 8192 in
theorem verify_order_id_roundtrip_and_field_change_witness :
    Function.Injective keccakUnary ∧ SingleFieldChange opC3A opC3B ∧
    (generate_order_id keccakUnary opC3A).isOk = true ∧
    ((generate_order_id keccakUnary opC3A).map
        (fun id => verify_order_id keccakUnary id opC3A) = .ok true ∧
      (generate_order_id keccakUnary opC3A).map
        (fun id => verify_order_id keccakUnary id opC3B) = .ok false) := by
  have hch : SingleFieldChange opC3A opC3B :=
    Or.inr (Or.inr (Or.inr (Or.inr (Or.inr (Or.inl
      ⟨rfl, rfl, rfl, rfl, rfl, by decide, rfl⟩)))))
  have hbps : pythonRound (opC3A.price * 10000) = 10000 := by
    have h1 : opC3A.price * 10000 = ((10000 : ℤ) : ℚ) := by norm_num [opC3A]
    rw [h1, pythonRound_intCast]
  have hok : (generate_order_id keccakUnary opC3A).isOk = true := by
    rw [generate_order_id_eval keccakUnary opC3A 10000 (by decide) (by decide) hbps]
    rfl
  exact ⟨keccakUnary_injective, hch, hok,
    verify_order_id_roundtrip_and_field_change keccakUnary keccakUnary_injective
      opC3A opC3B hch hok⟩

/-- `opC3A` with only the price changed by half a basis point: `0.99995`
rounds to the same 10000 basis points as `1`. -/
def opC3Px : OrderParams :=
  ⟨addrLowA, [49, 50], [98, 117, 121], 1000000, 19999/20000, 1700000000000, 137⟩

/-- `opC3A` with only the user address recased to all uppercase. -/
def opC3Up : OrderParams :=
  ⟨addrUpA, [49, 50], [98, 117, 121], 1000000, 1, 1700000000000, 137⟩

set_option maxRecDepth 8192 in
/-- C3 counterexample: changing a single field of the parameters does NOT
always flip verification to `false`: a price change below the basis-point
resolution (here from `1` to `0.99995`) and a pure recasing of the user
address both leave the encoded tuple — hence the identifier, for every
digest function — unchanged, so `verify_order_id` still returns `true`. -/
theorem verify_order_id_single_field_cex :
    (generate_order_id keccakZero opC3A).map
        (fun id => verify_order_id keccakZero id opC3Px) = .ok true ∧
    opC3A.price ≠ opC3Px.price ∧
    (generate_order_id keccakZero opC3A).map
        (fun id => verify_order_id keccakZero id opC3Up) = .ok true ∧
    opC3A.user_address ≠ opC3Up.user_address ∧
    opC3A.market_id = opC3Px.market_id ∧ opC3A.side = opC3Px.side ∧
    opC3A.size = opC3Px.size ∧ opC3A.timestamp = opC3Px.timestamp ∧
    opC3A.chain_id = opC3Px.chain_id := by
  have hbpsA : pythonRound (opC3A.price * 10000) = 10000 := by
    have h1 : opC3A.price * 10000 = ((10000 : ℤ) : ℚ) := by norm_num [opC3A]
    rw [h1, pythonRound_intCast]
  have hbpsP : pythonRound (opC3Px.price * 10000) = 10000 := by
    have h1 : opC3Px.price * 10000 = (19999 : ℚ)/2 := by norm_num [opC3Px]
    rw [h1]
    unfold pythonRound
    norm_num
  have hbpsU : pythonRound (opC3Up.price * 10000) = 10000 := by
    have h1 : opC3Up.price * 10000 = ((10000 : ℤ) : ℚ) := by norm_num [opC3Up]
    rw [h1, pythonRound_intCast]
  have hA : generate_order_id keccakZero opC3A = generate_order_id keccakZero opC3Px := by
    rw [generate_order_id_eval keccakZero opC3A 10000 (by decide) (by decide) hbpsA,
      generate_order_id_eval keccakZero opC3Px 10000 (by norm_num [opC3Px]) (by decide) hbpsP]
    rfl
  have hU : generate_order_id keccakZero opC3A = generate_order_id keccakZero opC3Up := by
    rw [generate_order_id_eval keccakZero opC3A 10000 (by decide) (by decide) hbpsA,
      generate_order_id_eval keccakZero opC3Up 10000 (by decide) (by decide) hbpsU]
    rfl
  have hisok : (generate_order_id keccakZero opC3A).isOk = true := by
    rw [generate_order_id_eval keccakZero opC3A 10000 (by decide) (by decide) hbpsA]
    rfl
  rcases hgenA : generate_order_id keccakZero opC3A with e | idA
  · rw [hgenA] at hisok
    cases hisok
  · have hgenP : generate_order_id keccakZero opC3Px = .ok idA := hA.symm.trans hgenA
    have hgenU : generate_order_id keccakZero opC3Up = .ok idA := hU.symm.trans hgenA
    refine ⟨?_, by norm_num [opC3A, opC3Px], ?_, by decide, rfl, rfl, rfl, rfl, rfl⟩
    · show Except.ok (verify_order_id keccakZero idA opC3Px) = Except.ok true
      congr 1
      unfold verify_order_id
      rw [hgenP]
      exact beq_self_eq_true _
    · show Except.ok (verify_order_id keccakZero idA opC3Up) = Except.ok true
      congr 1
      unfold verify_order_id
      rw [hgenU]
      exact beq_self_eq_true _

end Dome
